import Mathlib

/-! Shallow embedding of the catalog / registry core of `src/font_manager.py`
    (the `RepoConfig` and `Indexer` subsystem of the Font Download Manager).

    Pure data is translated directly; the GitHub download collaborator is
    modelled as a function from `(owner, repo, path)` to a fetch outcome,
    and the file system (for `load_json`) as an optional file content with
    an abstract parse function standing for `json.loads`. -/

namespace FontManager

/-- A raw font entry inside a remote descriptor document
    (an element of `desc["fonts"]` processed in `Indexer.refresh_all`,
    `font_manager.py` lines 89-107).  An `Option` field is `none` when the
    JSON key is absent; `files` defaults to `[]` exactly as
    `f.get("files", [])` does. -/
structure RawFont where
  id : Option String
  name : Option String
  family : Option String
  style : Option String
  version : Option String
  license : Option String
  files : List String
  deriving Repr, DecidableEq

/-- One entry of the source registry (`RepoConfig.repos`), as created by
    `RepoConfig.add_repo` (`font_manager.py` lines 51-57): key, owner, repo,
    descriptor path and enabled flag. -/
structure Source where
  key : String
  owner : String
  repo : String
  descriptor : String
  enabled : Bool
  deriving Repr, DecidableEq

/-- Python's `s.replace(" ", "_")`: with a one-character pattern and a
    one-character replacement this is exactly a per-character substitution. -/
def underscoreSpaces (s : String) : String :=
  String.mk (s.data.map (fun c => if c = ' ' then '_' else c))

/-- The derived identity `f"{f.get('family','')}_{f.get('name','')}".replace(" ", "_")`
    of `font_manager.py` line 90. -/
def derivedId (f : RawFont) : String :=
  underscoreSpaces ((f.family.getD "") ++ "_" ++ (f.name.getD ""))

/-- Line 90: `fid = f.get("id") or <derived>`.  Python `or` falls through on
    falsy values, so a missing `id` and the empty string both trigger the
    derivation; any other string is used verbatim. -/
def fidOf (f : RawFont) : String :=
  match f.id with
  | some s => if s = "" then derivedId f else s
  | none => derivedId f

/-- The `meta` dict built at `font_manager.py` lines 91-99. -/
structure Meta where
  id : String
  name : Option String
  family : Option String
  style : Option String
  version : Option String
  license : Option String
  files : List String
  deriving Repr, DecidableEq

def metaOf (f : RawFont) : Meta :=
  { id := fidOf f, name := f.name, family := f.family, style := f.style,
    version := f.version, license := f.license, files := f.files }

/-- The per-source record appended to `entry["sources"]` at lines 101-107. -/
structure SourceRecord where
  repo_key : String
  owner : String
  repo : String
  descriptor : String
  files : List String
  deriving Repr, DecidableEq

def recordOf (r : Source) (f : RawFont) : SourceRecord :=
  { repo_key := r.key, owner := r.owner, repo := r.repo,
    descriptor := r.descriptor, files := f.files }

/-- One catalog entry: `{"meta": meta, "sources": [...]}` (line 100). -/
structure CatalogEntry where
  meta : Meta
  sources : List SourceRecord
  deriving Repr, DecidableEq

/-- The index dict, modelled as an association list in insertion order
    (Python dicts preserve insertion order). -/
abbrev Catalog := List (String × CatalogEntry)

/-- Dict lookup `new_index[fid]`. -/
def lookupEntry : Catalog → String → Option CatalogEntry
  | [], _ => none
  | (k, e) :: rest, fid => if k = fid then some e else lookupEntry rest fid

/-- Lines 100-107: `entry = new_index.setdefault(fid, {"meta": meta, "sources": []})`
    followed by `entry["sources"].append(record)`.  When the key is present the
    existing entry keeps its meta and gets the record appended; otherwise a new
    entry is appended at the end of the dict with this meta. -/
def addRecord (c : Catalog) (fid : String) (m : Meta) (srec : SourceRecord) : Catalog :=
  match c with
  | [] => [(fid, { meta := m, sources := [srec] })]
  | (k, e) :: rest =>
    if k = fid then (k, { e with sources := e.sources ++ [srec] }) :: rest
    else (k, e) :: addRecord rest fid m srec

/-- An element of the descriptor's `fonts` list.  `bad` stands for an element
    that is not a font object (e.g. a bare string): iterating reaches it but
    `f.get(...)` raises, aborting the per-source loop (the exception is caught
    at line 108). -/
inductive Item where
  | good (f : RawFont)
  | bad
  deriving Repr, DecidableEq

/-- Outcome of fetching and parsing one source's descriptor.  `fail` covers a
    transport/auth error in `download_file` or a `json.loads` / shape failure
    before the font loop starts; `ok items` is a parsed `fonts` list. -/
inductive FetchResult where
  | fail
  | ok (items : List Item)
  deriving Repr, DecidableEq

/-- The injected retrieval collaborator: descriptor content is a function of
    owner, repo and descriptor path. -/
abbrev Fetch := String → String → String → FetchResult

/-- The `for f in fonts` loop body of lines 89-107.  A `bad` element raises;
    the exception handler at line 108 does `continue`, so the catalog built so
    far (including this source's earlier entries) is kept. -/
def processItems (c : Catalog) (r : Source) : List Item → Catalog
  | [] => c
  | .bad :: _ => c
  | .good f :: rest => processItems (addRecord c (fidOf f) (metaOf f) (recordOf r f)) r rest

/-- The `for r in list(self.repo_cfg.repos)` loop of `refresh_all`
    (lines 79-110): skip disabled sources, skip sources whose fetch fails,
    fold each fetched font list into the accumulating index. -/
def refreshLoop (F : Fetch) (c : Catalog) : List Source → Catalog
  | [] => c
  | r :: rest =>
    if r.enabled then
      match F r.owner r.repo r.descriptor with
      | .fail => refreshLoop F c rest
      | .ok items => refreshLoop F (processItems c r items) rest
    else refreshLoop F c rest

/-- `Indexer.refresh_all` (lines 77-114): builds `new_index` from scratch. -/
def refresh_all (repos : List Source) (F : Fetch) : Catalog :=
  refreshLoop F [] repos

/-- The `Indexer` state relevant to refreshing: its registry and its current
    in-memory index (`self.index`). -/
structure IndexerState where
  repos : List Source
  index : Catalog
  deriving Repr, DecidableEq

/-- Lines 111-113: the freshly built index replaces the old one. -/
def refreshAllState (F : Fetch) (s : IndexerState) : IndexerState :=
  { repos := s.repos, index := refresh_all s.repos F }

/-- `RepoConfig.add_repo` (lines 47-60).  Returns the outcome (`ValueError`
    on a duplicate key, or the new entry) together with the registry after
    the call; the raise happens before the append, so on error the registry
    is returned unchanged. -/
def add_repo (repos : List Source) (owner repo : String)
    (descriptor : String := "fonts.json") : Except String Source × List Source :=
  let key := owner ++ "/" ++ repo
  if repos.any (fun r => r.key == key) then
    (.error "仓库已存在", repos)
  else
    let entry : Source :=
      { key := key, owner := owner, repo := repo, descriptor := descriptor, enabled := true }
    (.ok entry, repos ++ [entry])

/-- `RepoConfig.remove_repo` (lines 62-64). -/
def remove_repo (repos : List Source) (key : String) : List Source :=
  repos.filter (fun r => r.key != key)

/-- `load_json` (lines 30-36).  The file system content at the path is an
    `Option String` (`none` when `path.exists()` is false); `parse` stands for
    `json.loads`, returning `none` when it would raise.  Any exception is
    swallowed and the default returned. -/
def load_json {α : Type} (parse : String → Option α) (file : Option String)
    (default : α) : α :=
  match file with
  | some s =>
    match parse s with
    | some v => v
    | none => default
  | none => default

/-! ### The processing stream

`refresh_all` processes raw entries in a definite order: registry insertion
order over enabled sources, then descriptor font-list order, stopping a
source's list at the first malformed element.  `stream` makes that order
explicit and `build` folds it; the lemmas below show `refresh_all` equals
this fold, which the per-claim theorems are then read off from. -/

/-- The raw fonts a descriptor's item list actually yields before the loop
    aborts (everything up to the first `bad` element). -/
def goodsOf : List Item → List RawFont
  | [] => []
  | .bad :: _ => []
  | .good f :: rest => f :: goodsOf rest

/-- The (source, raw font) pairs contributed by one registry entry. -/
def streamOne (F : Fetch) (r : Source) : List (Source × RawFont) :=
  if r.enabled then
    match F r.owner r.repo r.descriptor with
    | .fail => []
    | .ok items => (goodsOf items).map (fun f => (r, f))
  else []

/-- All (source, raw font) pairs processed by a refresh, in processing order. -/
def stream (F : Fetch) : List Source → List (Source × RawFont)
  | [] => []
  | r :: rest => streamOne F r ++ stream F rest

/-- Folding a stream of pairs into a catalog with `addRecord`. -/
def build (c : Catalog) : List (Source × RawFont) → Catalog
  | [] => c
  | (r, f) :: rest => build (addRecord c (fidOf f) (metaOf f) (recordOf r f)) rest

/-- The source records a stream generates for one identity, in order. -/
def recsFor (fid : String) (l : List (Source × RawFont)) : List SourceRecord :=
  (l.filter (fun p => fidOf p.2 == fid)).map (fun p => recordOf p.1 p.2)

/-- The first raw font of a stream carrying one identity. -/
def firstFor (fid : String) (l : List (Source × RawFont)) : Option RawFont :=
  (l.find? (fun p => fidOf p.2 == fid)).map (fun p => p.2)

/-- The records a given source key contributed to a given identity's entry. -/
def sourceContrib (c : Catalog) (fid k : String) : List SourceRecord :=
  match lookupEntry c fid with
  | none => []
  | some e => e.sources.filter (fun s => s.repo_key == k)

/-- The spec's invariant on catalog entries: a non-empty sources list with
    pairwise-distinct source keys. -/
def SourcesInvariant (c : Catalog) : Prop :=
  ∀ p ∈ c, p.2.sources ≠ [] ∧ ((p.2.sources.map (fun s => s.repo_key)).Nodup)

/-! ### Concrete scenario fixtures

Registries and fetch outcomes for the spec's scenarios A-D and for the
corner cases the code exposes (duplicate identities inside one descriptor,
a malformed element partway through a font list, a disabled source). -/

/-- Scenario A's raw font entry: family Inter, name Regular, one file. -/
def interRegular : RawFont :=
  ⟨none, some "Regular", some "Inter", none, none, none, ["Inter-Regular.ttf"]⟩

/-- Scenario A's single source `acme/fonts`. -/
def acmeFonts : Source := ⟨"acme/fonts", "acme", "fonts", "fonts.json", true⟩

/-- Scenario A's remote state: only `acme/fonts` serves a descriptor. -/
def fetchScenA : Fetch := fun owner repo path =>
  if owner == "acme" && repo == "fonts" && path == "fonts.json" then
    .ok [.good interRegular]
  else .fail

def alphaSrc : Source := ⟨"alpha/one", "alpha", "one", "fonts.json", true⟩

def betaSrc : Source := ⟨"beta/two", "beta", "two", "fonts.json", true⟩

/-- Scenario B: both sources declare family Inter, name Regular, but with
    different concrete files (and different style/version fields, to make the
    first-seen-meta policy observable). -/
def interFirst : RawFont :=
  ⟨none, some "Regular", some "Inter", some "First", some "1.0", none, ["InterA.ttf"]⟩

def interSecond : RawFont :=
  ⟨none, some "Regular", some "Inter", some "Second", some "2.0", none, ["InterB.ttf"]⟩

def fetchScenB : Fetch := fun owner _ _ =>
  if owner == "alpha" then .ok [.good interFirst]
  else if owner == "beta" then .ok [.good interSecond]
  else .fail

/-- Scenario D variant: `beta/two`'s fonts list has a malformed element after
    a valid one, so processing it raises partway through. -/
def fetchScenD : Fetch := fun owner _ _ =>
  if owner == "alpha" then .ok [.good interFirst]
  else if owner == "beta" then .ok [.good interSecond, .bad]
  else .fail

/-- One descriptor declaring the same identity twice with different files. -/
def fetchDup : Fetch := fun owner _ _ =>
  if owner == "acme" then .ok [.good interFirst, .good interSecond]
  else .fail

/-- A registry entry whose enabled flag is off. -/
def dormantAcme : Source := ⟨"acme/fonts", "acme", "fonts", "fonts.json", false⟩

/-- A raw entry whose `id` field is present but the empty string. -/
def emptyIdFont : RawFont :=
  ⟨some "", some "Regular", some "Inter", none, none, none, ["Inter-Regular.ttf"]⟩

def fetchEmptyId : Fetch := fun owner repo path =>
  if owner == "acme" && repo == "fonts" && path == "fonts.json" then
    .ok [.good emptyIdFont]
  else .fail

/-- A source no fetch function above serves: its descriptor download fails. -/
def gammaSrc : Source := ⟨"gamma/three", "gamma", "three", "fonts.json", true⟩


theorem addRecord_lookup (c : Catalog) (k : String) (m : Meta) (srec : SourceRecord)
    (fid : String) :
    lookupEntry (addRecord c k m srec) fid =
      if fid = k then
        match lookupEntry c k with
        | some e => some ⟨e.meta, e.sources ++ [srec]⟩
        | none => some ⟨m, [srec]⟩
      else lookupEntry c fid := by
  induction c with
  | nil =>
    by_cases h : fid = k
    · subst h; simp [addRecord, lookupEntry]
    · simp [addRecord, lookupEntry, h, Ne.symm h]
  | cons p rest ih =>
    obtain ⟨k', e⟩ := p
    by_cases hk : k' = k
    · subst hk
      by_cases h : fid = k'
      · subst h; simp [addRecord, lookupEntry]
      · simp [addRecord, lookupEntry, h, Ne.symm h]
    · by_cases h : fid = k'
      · subst h
        simp [addRecord, lookupEntry, hk, Ne.symm hk]
      · simp [addRecord, lookupEntry, hk, h, Ne.symm h, ih]

theorem build_append (xs ys : List (Source × RawFont)) :
    ∀ c : Catalog, build c (xs ++ ys) = build (build c xs) ys := by
  induction xs with
  | nil => intro c; rfl
  | cons p rest ih => intro c; obtain ⟨r, f⟩ := p; simp [build, ih]

theorem processItems_eq_build (items : List Item) :
    ∀ (c : Catalog) (r : Source),
      processItems c r items = build c ((goodsOf items).map (fun f => (r, f))) := by
  induction items with
  | nil => intro c r; rfl
  | cons it rest ih =>
    intro c r
    cases it with
    | good f => simp [processItems, goodsOf, build, ih]
    | bad => rfl

theorem refreshLoop_eq_build (F : Fetch) (repos : List Source) :
    ∀ c : Catalog, refreshLoop F c repos = build c (stream F repos) := by
  induction repos with
  | nil => intro c; rfl
  | cons r rest ih =>
    intro c
    cases hr : r.enabled with
    | false => simp [refreshLoop, stream, streamOne, hr, ih]
    | true =>
      cases hF : F r.owner r.repo r.descriptor with
      | fail => simp [refreshLoop, stream, streamOne, hr, hF, ih]
      | ok items =>
        simp [refreshLoop, stream, streamOne, hr, hF, ih, build_append,
          processItems_eq_build]

theorem refresh_eq_build (repos : List Source) (F : Fetch) :
    refresh_all repos F = build [] (stream F repos) :=
  refreshLoop_eq_build F repos []

theorem recsFor_cons_pos {f : RawFont} {fid : String} (r : Source)
    (rest : List (Source × RawFont)) (h : fidOf f = fid) :
    recsFor fid ((r, f) :: rest) = recordOf r f :: recsFor fid rest := by
  simp [recsFor, List.filter_cons, h]

theorem recsFor_cons_neg {f : RawFont} {fid : String} (r : Source)
    (rest : List (Source × RawFont)) (h : fidOf f ≠ fid) :
    recsFor fid ((r, f) :: rest) = recsFor fid rest := by
  simp [recsFor, List.filter_cons, h]

theorem firstFor_cons_pos {f : RawFont} {fid : String} (r : Source)
    (rest : List (Source × RawFont)) (h : fidOf f = fid) :
    firstFor fid ((r, f) :: rest) = some f := by
  simp [firstFor, List.find?_cons, h]

theorem firstFor_cons_neg {f : RawFont} {fid : String} (r : Source)
    (rest : List (Source × RawFont)) (h : fidOf f ≠ fid) :
    firstFor fid ((r, f) :: rest) = firstFor fid rest := by
  simp [firstFor, List.find?_cons, h]

theorem build_lookup (l : List (Source × RawFont)) :
    ∀ (c : Catalog) (fid : String),
      lookupEntry (build c l) fid =
        match lookupEntry c fid with
        | some e => some ⟨e.meta, e.sources ++ recsFor fid l⟩
        | none =>
          match firstFor fid l with
          | some f => some ⟨metaOf f, recsFor fid l⟩
          | none => none := by
  induction l with
  | nil =>
    intro c fid
    cases h : lookupEntry c fid <;> simp [build, recsFor, firstFor, h]
  | cons p rest ih =>
    intro c fid
    obtain ⟨r₀, f₀⟩ := p
    show lookupEntry (build (addRecord c (fidOf f₀) (metaOf f₀) (recordOf r₀ f₀)) rest) fid = _
    rw [ih, addRecord_lookup]
    by_cases h : fid = fidOf f₀
    · subst h
      rw [if_pos rfl]
      cases hc : lookupEntry c (fidOf f₀) with
      | some e => simp [hc, recsFor_cons_pos r₀ rest rfl, firstFor_cons_pos r₀ rest rfl]
      | none => simp [hc, recsFor_cons_pos r₀ rest rfl, firstFor_cons_pos r₀ rest rfl]
    · rw [if_neg h]
      have h' : fidOf f₀ ≠ fid := Ne.symm h
      cases hc : lookupEntry c fid <;>
        simp [hc, recsFor_cons_neg r₀ rest h', firstFor_cons_neg r₀ rest h']

/-- The master characterization: an identity's entry after refresh is built
    from the first stream element with that identity (meta) and all stream
    elements with that identity (sources). -/
theorem lookup_refresh (repos : List Source) (F : Fetch) (fid : String) :
    lookupEntry (refresh_all repos F) fid =
      match firstFor fid (stream F repos) with
      | some f => some ⟨metaOf f, recsFor fid (stream F repos)⟩
      | none => none := by
  rw [refresh_eq_build, build_lookup]
  rfl

/-! ### Key uniqueness and membership -/

theorem lookupEntry_eq_none_iff (c : Catalog) (fid : String) :
    lookupEntry c fid = none ↔ fid ∉ c.map Prod.fst := by
  induction c with
  | nil => simp [lookupEntry]
  | cons p rest ih =>
    obtain ⟨k, e⟩ := p
    by_cases h : k = fid
    · subst h; simp [lookupEntry]
    · simp [lookupEntry, h, ih, Ne.symm h]

theorem addRecord_keys (c : Catalog) (k : String) (m : Meta) (srec : SourceRecord) :
    (addRecord c k m srec).map Prod.fst =
      if lookupEntry c k = none then c.map Prod.fst ++ [k] else c.map Prod.fst := by
  induction c with
  | nil => simp [addRecord, lookupEntry]
  | cons p rest ih =>
    obtain ⟨k', e⟩ := p
    by_cases h : k' = k
    · subst h; simp [addRecord, lookupEntry]
    · by_cases hl : lookupEntry rest k = none <;>
        simp [addRecord, lookupEntry, h, hl, ih]

theorem addRecord_keys_nodup (c : Catalog) (k : String) (m : Meta) (srec : SourceRecord)
    (h : (c.map Prod.fst).Nodup) : ((addRecord c k m srec).map Prod.fst).Nodup := by
  rw [addRecord_keys]
  by_cases hk : lookupEntry c k = none
  · rw [if_pos hk]
    have hnotin : k ∉ c.map Prod.fst := (lookupEntry_eq_none_iff c k).mp hk
    simp [List.nodup_append, h, hnotin]
  · rw [if_neg hk]; exact h

theorem build_keys_nodup (l : List (Source × RawFont)) :
    ∀ c : Catalog, (c.map Prod.fst).Nodup → ((build c l).map Prod.fst).Nodup := by
  induction l with
  | nil => intro c h; exact h
  | cons p rest ih =>
    intro c h
    obtain ⟨r, f⟩ := p
    exact ih _ (addRecord_keys_nodup c (fidOf f) (metaOf f) (recordOf r f) h)

/-- The catalog produced by a refresh has pairwise-distinct keys: at most one
    entry per identity. -/
theorem refresh_keys_nodup (repos : List Source) (F : Fetch) :
    ((refresh_all repos F).map Prod.fst).Nodup := by
  rw [refresh_eq_build]
  exact build_keys_nodup _ [] (by simp)

theorem lookupEntry_of_mem {c : Catalog} (hnd : (c.map Prod.fst).Nodup)
    {p : String × CatalogEntry} (hp : p ∈ c) : lookupEntry c p.1 = some p.2 := by
  induction c with
  | nil => cases hp
  | cons q rest ih =>
    obtain ⟨k, e⟩ := q
    rcases List.mem_cons.mp hp with h | h
    · subst h; simp [lookupEntry]
    · have hk : k ≠ p.1 := by
        intro hkey
        have : p.1 ∈ rest.map Prod.fst := List.mem_map_of_mem Prod.fst h
        rw [List.map_cons, List.nodup_cons] at hnd
        exact hnd.1 (hkey ▸ this)
      have hnd' : (rest.map Prod.fst).Nodup := by
        rw [List.map_cons, List.nodup_cons] at hnd
        exact hnd.2
      simp [lookupEntry, hk, ih hnd' h]

/-! ### Stream decomposition -/

theorem stream_append (F : Fetch) (l₁ l₂ : List Source) :
    stream F (l₁ ++ l₂) = stream F l₁ ++ stream F l₂ := by
  induction l₁ with
  | nil => rfl
  | cons r rest ih => simp [stream, ih]

theorem streamOne_fst {F : Fetch} {r : Source} {p : Source × RawFont}
    (hp : p ∈ streamOne F r) : p.1 = r := by
  cases hr : r.enabled with
  | false => simp [streamOne, hr] at hp
  | true =>
    cases hF : F r.owner r.repo r.descriptor with
    | fail => simp [streamOne, hr, hF] at hp
    | ok items =>
      simp only [streamOne, hr, hF, if_true, List.mem_map] at hp
      obtain ⟨f, _, rfl⟩ := hp
      rfl

theorem stream_fst_mem {F : Fetch} {repos : List Source} {p : Source × RawFont}
    (hp : p ∈ stream F repos) : p.1 ∈ repos := by
  induction repos with
  | nil => cases hp
  | cons r rest ih =>
    rcases List.mem_append.mp hp with h | h
    · rw [streamOne_fst h]; exact List.mem_cons_self r rest
    · exact List.mem_cons_of_mem r (ih h)

theorem recsFor_append (fid : String) (l₁ l₂ : List (Source × RawFont)) :
    recsFor fid (l₁ ++ l₂) = recsFor fid l₁ ++ recsFor fid l₂ := by
  simp [recsFor, List.filter_append]

theorem recsFor_ne_nil_of_firstFor {fid : String} {l : List (Source × RawFont)}
    {f : RawFont} (h : firstFor fid l = some f) : recsFor fid l ≠ [] := by
  induction l with
  | nil => simp [firstFor] at h
  | cons p rest ih =>
    obtain ⟨r₀, f₀⟩ := p
    by_cases hf : fidOf f₀ = fid
    · rw [recsFor_cons_pos r₀ rest hf]; simp
    · rw [recsFor_cons_neg r₀ rest hf]
      rw [firstFor_cons_neg r₀ rest hf] at h
      exact ih h

/-! ### Per-entry source-key facts -/

theorem nodup_of_length_le_one {α : Type} {l : List α} (h : l.length ≤ 1) : l.Nodup := by
  match l with
  | [] => exact List.nodup_nil
  | [a] => exact List.nodup_singleton a
  | a :: b :: rest => simp at h

theorem recsFor_eq_nil_of_firstFor_none {fid : String} :
    ∀ {l : List (Source × RawFont)}, firstFor fid l = none → recsFor fid l = [] := by
  intro l
  induction l with
  | nil => intro _; rfl
  | cons p rest ih =>
    intro h
    obtain ⟨r₀, f₀⟩ := p
    by_cases hf : fidOf f₀ = fid
    · rw [firstFor_cons_pos r₀ rest hf] at h; cases h
    · rw [firstFor_cons_neg r₀ rest hf] at h
      rw [recsFor_cons_neg r₀ rest hf]
      exact ih h

theorem recsFor_length_le_one {fid : String} :
    ∀ {l : List (Source × RawFont)}, ((l.map (fun p => fidOf p.2)).Nodup) →
      (recsFor fid l).length ≤ 1 := by
  intro l
  induction l with
  | nil => intro _; simp [recsFor]
  | cons p rest ih =>
    intro hnd
    obtain ⟨r₀, f₀⟩ := p
    rw [List.map_cons, List.nodup_cons] at hnd
    by_cases hf : fidOf f₀ = fid
    · rw [recsFor_cons_pos r₀ rest hf]
      have hnil : recsFor fid rest = [] := by
        have hfil : rest.filter (fun p => fidOf p.2 == fid) = [] := by
          rw [List.filter_eq_nil_iff]
          intro a ha
          simp only [beq_iff_eq]
          intro hEq
          exact hnd.1 ((hEq.trans hf.symm) ▸ List.mem_map_of_mem _ ha)
        simp [recsFor, hfil]
      simp [hnil]
    · rw [recsFor_cons_neg r₀ rest hf]
      exact ih hnd.2

theorem recsFor_streamOne_key {F : Fetch} {r : Source} {fid : String} :
    ∀ s ∈ recsFor fid (streamOne F r), s.repo_key = r.key := by
  intro s hs
  simp only [recsFor, List.mem_map] at hs
  obtain ⟨p, hp, rfl⟩ := hs
  have hmem : p ∈ streamOne F r := List.mem_of_mem_filter hp
  show p.1.key = r.key
  rw [streamOne_fst hmem]

theorem recsFor_stream_key_mem {F : Fetch} {repos : List Source} {fid : String} :
    ∀ s ∈ recsFor fid (stream F repos), s.repo_key ∈ repos.map (fun r => r.key) := by
  intro s hs
  simp only [recsFor, List.mem_map] at hs
  obtain ⟨p, hp, rfl⟩ := hs
  have hmem : p ∈ stream F repos := List.mem_of_mem_filter hp
  exact List.mem_map_of_mem _ (stream_fst_mem hmem)

/-- If the registry's keys are pairwise distinct and no single source's
    processed font list carries a repeated identity, then the records
    collected for any identity carry pairwise distinct source keys. -/
theorem recsFor_stream_nodup {F : Fetch} {fid : String} :
    ∀ {repos : List Source}, ((repos.map (fun r => r.key)).Nodup) →
      (∀ r ∈ repos, ((streamOne F r).map (fun p => fidOf p.2)).Nodup) →
      ((recsFor fid (stream F repos)).map (fun s => s.repo_key)).Nodup := by
  intro repos
  induction repos with
  | nil => intro _ _; simp [stream, recsFor]
  | cons r rest ih =>
    intro hkeys hsrc
    rw [List.map_cons, List.nodup_cons] at hkeys
    have hstream : stream F (r :: rest) = streamOne F r ++ stream F rest := rfl
    rw [hstream, recsFor_append, List.map_append, List.nodup_append]
    refine ⟨?_, ?_, ?_⟩
    · have h1 : (recsFor fid (streamOne F r)).length ≤ 1 :=
        recsFor_length_le_one (hsrc r (List.mem_cons_self r rest))
      exact nodup_of_length_le_one (by simpa using h1)
    · exact ih hkeys.2 (fun r' hr' => hsrc r' (List.mem_cons_of_mem r hr'))
    · intro a ha hb
      simp only [List.mem_map] at ha hb
      obtain ⟨s₁, hs₁, rfl⟩ := ha
      obtain ⟨s₂, hs₂, hkey⟩ := hb
      have h₁ : s₁.repo_key = r.key := recsFor_streamOne_key s₁ hs₁
      have h₂ : s₂.repo_key ∈ rest.map (fun r => r.key) := recsFor_stream_key_mem s₂ hs₂
      rw [hkey, h₁] at h₂
      exact hkeys.1 h₂

/-! ### Per-source contributions (for remove/re-add reasoning) -/

theorem sourceContrib_refresh (repos : List Source) (F : Fetch) (fid k : String) :
    sourceContrib (refresh_all repos F) fid k =
      (recsFor fid (stream F repos)).filter (fun s => s.repo_key == k) := by
  rw [sourceContrib, lookup_refresh]
  cases hf : firstFor fid (stream F repos) with
  | some f => rfl
  | none => simp [recsFor_eq_nil_of_firstFor_none hf]

theorem recsFor_filter_eq_nil {F : Fetch} {repos : List Source} {fid k : String}
    (h : ∀ r ∈ repos, r.key ≠ k) :
    (recsFor fid (stream F repos)).filter (fun s => s.repo_key == k) = [] := by
  rw [List.filter_eq_nil_iff]
  intro s hs
  simp only [beq_iff_eq]
  intro hEq
  have hmem := recsFor_stream_key_mem s hs
  rw [hEq] at hmem
  obtain ⟨r, hr, hrk⟩ := List.mem_map.mp hmem
  exact h r hr hrk

theorem recsFor_filter_eq_self {F : Fetch} {s : Source} {fid : String} :
    (recsFor fid (streamOne F s)).filter (fun x => x.repo_key == s.key) =
      recsFor fid (streamOne F s) := by
  rw [List.filter_eq_self]
  intro x hx
  simp [recsFor_streamOne_key x hx]

theorem contrib_single {l₁ l₂ : List Source} {s : Source} {F : Fetch}
    (h₁ : ∀ r ∈ l₁, r.key ≠ s.key) (h₂ : ∀ r ∈ l₂, r.key ≠ s.key) (fid : String) :
    sourceContrib (refresh_all (l₁ ++ s :: l₂) F) fid s.key =
      recsFor fid (streamOne F s) := by
  rw [sourceContrib_refresh, stream_append]
  have hcons : stream F (s :: l₂) = streamOne F s ++ stream F l₂ := rfl
  rw [hcons, recsFor_append, recsFor_append, List.filter_append, List.filter_append,
      recsFor_filter_eq_nil h₁, recsFor_filter_eq_self, recsFor_filter_eq_nil h₂]
  simp

theorem remove_repo_decomp {pre post : List Source} {s : Source}
    (hpre : ∀ r ∈ pre, r.key ≠ s.key) (hpost : ∀ r ∈ post, r.key ≠ s.key) :
    remove_repo (pre ++ s :: post) s.key = pre ++ post := by
  unfold remove_repo
  rw [List.filter_append, List.filter_cons]
  have h1 : pre.filter (fun r => r.key != s.key) = pre :=
    List.filter_eq_self.mpr (fun r hr => by simpa using hpre r hr)
  have h2 : post.filter (fun r => r.key != s.key) = post :=
    List.filter_eq_self.mpr (fun r hr => by simpa using hpost r hr)
  simp [h1, h2]

theorem add_repo_after_remove {pre post : List Source} {s : Source}
    (hpre : ∀ r ∈ pre, r.key ≠ s.key) (hpost : ∀ r ∈ post, r.key ≠ s.key)
    (hkey : s.key = s.owner ++ "/" ++ s.repo) (hen : s.enabled = true) :
    (add_repo (remove_repo (pre ++ s :: post) s.key) s.owner s.repo s.descriptor).2 =
      (pre ++ post) ++ [s] := by
  rw [remove_repo_decomp hpre hpost]
  have hany : ((pre ++ post).any (fun r => r.key == s.owner ++ "/" ++ s.repo)) = false := by
    rw [List.any_eq_false]
    intro r hr
    simp only [beq_iff_eq, ← hkey]
    rcases List.mem_append.mp hr with h | h
    · exact hpre r h
    · exact hpost r h
  have hs : ({ key := s.owner ++ "/" ++ s.repo, owner := s.owner, repo := s.repo,
               descriptor := s.descriptor, enabled := true } : Source) = s := by
    cases s with
    | mk k o r d e =>
      simp only at hkey hen
      rw [show k = o ++ "/" ++ r from hkey, show e = true from hen]
  simp only [add_repo, hany, Bool.false_eq_true, if_false, hs]

/-! ### Claim theorems -/

/-- C1: after a refresh there is at most one catalog entry per identity
    (entry keys are pairwise distinct), and an entry's `sources` list is
    exactly the per-(source, raw entry) records of the processing stream for
    that identity — each record keeps its own source's file list, never a
    merge.  Concretely (Scenario B): two enabled sources both declaring
    family Inter, name Regular with different file names produce one entry
    keyed `Inter_Regular` whose sources list has length 2, each record
    carrying its own distinct file list. -/
theorem C1_one_entry_per_identity_sources_unmerged :
    (∀ (repos : List Source) (F : Fetch) (fid : String) (e : CatalogEntry),
        lookupEntry (refresh_all repos F) fid = some e →
        e.sources = recsFor fid (stream F repos)) ∧
    (∀ (repos : List Source) (F : Fetch), ((refresh_all repos F).map Prod.fst).Nodup) ∧
    refresh_all [alphaSrc, betaSrc] fetchScenB =
      [("Inter_Regular",
        ⟨⟨"Inter_Regular", some "Regular", some "Inter", some "First", some "1.0", none,
          ["InterA.ttf"]⟩,
         [⟨"alpha/one", "alpha", "one", "fonts.json", ["InterA.ttf"]⟩,
          ⟨"beta/two", "beta", "two", "fonts.json", ["InterB.ttf"]⟩]⟩)] := by
  refine ⟨?_, fun repos F => refresh_keys_nodup repos F, by decide⟩
  intro repos F fid e h
  rw [lookup_refresh] at h
  cases hf : firstFor fid (stream F repos) with
  | some f =>
    rw [hf] at h
    injection h with h'
    rw [← h']
  | none => rw [hf] at h; cases h

/-- Witness for C1's hypothesis-bearing conjunct, at Scenario B. -/
theorem C1_witness :
    (⟨⟨"Inter_Regular", some "Regular", some "Inter", some "First", some "1.0", none,
       ["InterA.ttf"]⟩,
      [⟨"alpha/one", "alpha", "one", "fonts.json", ["InterA.ttf"]⟩,
       ⟨"beta/two", "beta", "two", "fonts.json", ["InterB.ttf"]⟩]⟩ : CatalogEntry).sources =
      recsFor "Inter_Regular" (stream fetchScenB [alphaSrc, betaSrc]) :=
  C1_one_entry_per_identity_sources_unmerged.1 [alphaSrc, betaSrc] fetchScenB "Inter_Regular"
    ⟨⟨"Inter_Regular", some "Regular", some "Inter", some "First", some "1.0", none,
      ["InterA.ttf"]⟩,
     [⟨"alpha/one", "alpha", "one", "fonts.json", ["InterA.ttf"]⟩,
      ⟨"beta/two", "beta", "two", "fonts.json", ["InterB.ttf"]⟩]⟩ (by decide)

/-- C2: when `id` is absent the catalog key is `family + "_" + name` with
    every space replaced by an underscore, a pure function of the
    (family, name) pair.  Concretely (Scenario A): one source `acme/fonts`
    listing family Inter, name Regular, files [Inter-Regular.ttf] yields
    exactly one entry keyed `Inter_Regular` with one source record. -/
theorem C2_identity_derivation :
    (∀ f : RawFont, f.id = none →
        fidOf f = underscoreSpaces ((f.family.getD "") ++ "_" ++ (f.name.getD ""))) ∧
    (∀ f g : RawFont, f.id = none → g.id = none → f.family = g.family → f.name = g.name →
        fidOf f = fidOf g) ∧
    refresh_all [acmeFonts] fetchScenA =
      [("Inter_Regular",
        ⟨⟨"Inter_Regular", some "Regular", some "Inter", none, none, none,
          ["Inter-Regular.ttf"]⟩,
         [⟨"acme/fonts", "acme", "fonts", "fonts.json", ["Inter-Regular.ttf"]⟩]⟩)] := by
  refine ⟨?_, ?_, by decide⟩
  · intro f h
    simp [fidOf, h, derivedId]
  · intro f g hf hg hfam hname
    simp [fidOf, hf, hg, derivedId, hfam, hname]

/-- Witness for C2's hypothesis-bearing conjuncts, at Scenario A's raw entry. -/
theorem C2_witness :
    fidOf interRegular =
      underscoreSpaces ((interRegular.family.getD "") ++ "_" ++ (interRegular.name.getD "")) :=
  C2_identity_derivation.1 interRegular rfl

/-- C3: a catalog entry's meta is the snapshot of the first raw entry seen
    with that identity, in processing order (registry insertion order over
    enabled sources, then font-list order — exactly the order of `stream`);
    later raw entries with the same identity never override it.  Concretely:
    with Scenario B's two sources carrying different style/version fields,
    the entry's meta is the first source's snapshot even though the second
    source's differs. -/
theorem C3_first_seen_meta_wins :
    (∀ (repos : List Source) (F : Fetch) (fid : String) (e : CatalogEntry),
        lookupEntry (refresh_all repos F) fid = some e →
        (firstFor fid (stream F repos)).map metaOf = some e.meta) ∧
    (lookupEntry (refresh_all [alphaSrc, betaSrc] fetchScenB) "Inter_Regular").map
        (fun e => e.meta) = some (metaOf interFirst) ∧
    metaOf interFirst ≠ metaOf interSecond := by
  refine ⟨?_, by decide, by decide⟩
  intro repos F fid e h
  rw [lookup_refresh] at h
  cases hf : firstFor fid (stream F repos) with
  | some f =>
    rw [hf] at h
    injection h with h'
    rw [← h']
    rfl
  | none => rw [hf] at h; cases h

/-- Witness for C3's hypothesis-bearing conjunct, at Scenario B. -/
theorem C3_witness :
    (firstFor "Inter_Regular" (stream fetchScenB [alphaSrc, betaSrc])).map metaOf =
      some (⟨⟨"Inter_Regular", some "Regular", some "Inter", some "First", some "1.0", none,
              ["InterA.ttf"]⟩,
             [⟨"alpha/one", "alpha", "one", "fonts.json", ["InterA.ttf"]⟩,
              ⟨"beta/two", "beta", "two", "fonts.json", ["InterB.ttf"]⟩]⟩ : CatalogEntry).meta :=
  C3_first_seen_meta_wins.1 [alphaSrc, betaSrc] fetchScenB "Inter_Regular"
    ⟨⟨"Inter_Regular", some "Regular", some "Inter", some "First", some "1.0", none,
      ["InterA.ttf"]⟩,
     [⟨"alpha/one", "alpha", "one", "fonts.json", ["InterA.ttf"]⟩,
      ⟨"beta/two", "beta", "two", "fonts.json", ["InterB.ttf"]⟩]⟩ (by decide)

/-- C4 counterexample: `beta/two`'s fonts list raises partway through (a
    malformed element after a valid one); the valid element already added
    stays in the catalog, so the result is NOT identical to the catalog with
    that source disabled — the claim's "Si contributes nothing" fails for
    mid-list processing failures. -/
theorem C4_counterexample :
    fetchScenD betaSrc.owner betaSrc.repo betaSrc.descriptor =
        .ok [.good interSecond, .bad] ∧
    refresh_all [alphaSrc, betaSrc] fetchScenD ≠
      refresh_all [alphaSrc, { betaSrc with enabled := false }] fetchScenD := by
  exact ⟨rfl, by decide⟩

/-- C4 amended: when fetching or parsing a source's descriptor fails before
    any font entry is processed (`FetchResult.fail`: transport, auth, or
    whole-document parse failure), the refresh does not abort, that source
    contributes nothing, and the catalog is identical to the one produced
    with that source disabled.  (A failure partway through the font list
    instead keeps the entries already processed, per the counterexample.) -/
theorem C4_fetch_failure_equals_disabled :
    ∀ (pre post : List Source) (s : Source) (F : Fetch),
      F s.owner s.repo s.descriptor = .fail →
      refresh_all (pre ++ s :: post) F =
        refresh_all (pre ++ { s with enabled := false } :: post) F := by
  intro pre post s F hF
  rw [refresh_eq_build, refresh_eq_build, stream_append, stream_append]
  have h1 : stream F (s :: post) = streamOne F s ++ stream F post := rfl
  have h2 : stream F ({ s with enabled := false } :: post) =
      streamOne F { s with enabled := false } ++ stream F post := rfl
  have hs1 : streamOne F s = [] := by simp [streamOne, hF]
  have hs2 : streamOne F { s with enabled := false } = [] := by simp [streamOne]
  rw [h1, h2, hs1, hs2]

/-- Witness for C4's amended theorem: `gamma/three`'s fetch fails, and the
    refresh equals the one with it disabled. -/
theorem C4_witness :
    refresh_all ([alphaSrc] ++ gammaSrc :: []) fetchScenB =
      refresh_all ([alphaSrc] ++ { gammaSrc with enabled := false } :: []) fetchScenB :=
  C4_fetch_failure_equals_disabled [alphaSrc] [] gammaSrc fetchScenB (by decide)

/-- C5: refresh is idempotent — `refresh_all` rebuilds the index from
    scratch as a function of the registry and the fetched descriptors only,
    so with unchanged registry and unchanged remote data a second refresh
    produces an identical state, and hence any serialization of the
    persisted catalog document is identical too. -/
theorem C5_refresh_idempotent :
    ∀ (F : Fetch) (st : IndexerState),
      refreshAllState F (refreshAllState F st) = refreshAllState F st ∧
      ∀ serialize : Catalog → String,
        serialize (refreshAllState F (refreshAllState F st)).index =
          serialize (refreshAllState F st).index :=
  fun _ _ => ⟨rfl, fun _ => rfl⟩

/-- C6 counterexample: one descriptor listing the same identity twice gives
    that identity's entry two source records with the same source key, so
    the claimed invariant fails as stated. -/
theorem C6_counterexample : ¬ SourcesInvariant (refresh_all [acmeFonts] fetchDup) := by
  unfold SourcesInvariant
  decide

/-- C6 amended: every entry of a refreshed catalog has a non-empty sources
    list (unconditionally); and no two source records of an entry share a
    source key, provided the registry's keys are pairwise distinct and no
    single enabled source's processed font list repeats an identity. -/
theorem C6_sources_nonempty_keys_nodup :
    (∀ (repos : List Source) (F : Fetch), ∀ p ∈ refresh_all repos F, p.2.sources ≠ []) ∧
    (∀ (repos : List Source) (F : Fetch),
      ((repos.map (fun r => r.key)).Nodup) →
      (∀ r ∈ repos, ((streamOne F r).map (fun p => fidOf p.2)).Nodup) →
      ∀ p ∈ refresh_all repos F, ((p.2.sources.map (fun s => s.repo_key)).Nodup)) := by
  constructor
  · intro repos F p hp
    have hl := lookupEntry_of_mem (refresh_keys_nodup repos F) hp
    rw [lookup_refresh] at hl
    cases hf : firstFor p.1 (stream F repos) with
    | none => rw [hf] at hl; cases hl
    | some f =>
      rw [hf] at hl
      injection hl with h2
      rw [← h2]
      exact recsFor_ne_nil_of_firstFor hf
  · intro repos F hkeys hsrc p hp
    have hl := lookupEntry_of_mem (refresh_keys_nodup repos F) hp
    rw [lookup_refresh] at hl
    cases hf : firstFor p.1 (stream F repos) with
    | none => rw [hf] at hl; cases hl
    | some f =>
      rw [hf] at hl
      injection hl with h2
      rw [← h2]
      exact recsFor_stream_nodup hkeys hsrc

/-- Witness for C6's amended theorem, at Scenario B. -/
theorem C6_witness :
    ((⟨⟨"Inter_Regular", some "Regular", some "Inter", some "First", some "1.0", none,
        ["InterA.ttf"]⟩,
       [⟨"alpha/one", "alpha", "one", "fonts.json", ["InterA.ttf"]⟩,
        ⟨"beta/two", "beta", "two", "fonts.json", ["InterB.ttf"]⟩]⟩ :
          CatalogEntry).sources.map (fun s => s.repo_key)).Nodup :=
  C6_sources_nonempty_keys_nodup.2 [alphaSrc, betaSrc] fetchScenB (by decide) (by decide)
    ("Inter_Regular",
     ⟨⟨"Inter_Regular", some "Regular", some "Inter", some "First", some "1.0", none,
       ["InterA.ttf"]⟩,
      [⟨"alpha/one", "alpha", "one", "fonts.json", ["InterA.ttf"]⟩,
       ⟨"beta/two", "beta", "two", "fonts.json", ["InterB.ttf"]⟩]⟩) (by decide)

/-- C7: adding a source whose `owner/repo` key is already present fails with
    the duplicate error and leaves the registry unchanged; adding a fresh
    key appends the new record and returns it.  Concretely (Scenario C):
    `add("a","b")` twice errors the second time and the registry length
    stays 1. -/
theorem C7_add_duplicate_rejected :
    (∀ (repos : List Source) (o r d : String),
        (repos.any (fun x => x.key == o ++ "/" ++ r)) = true →
        add_repo repos o r d = (.error "仓库已存在", repos)) ∧
    (∀ (repos : List Source) (o r d : String),
        (repos.any (fun x => x.key == o ++ "/" ++ r)) = false →
        add_repo repos o r d =
          (.ok ⟨o ++ "/" ++ r, o, r, d, true⟩, repos ++ [⟨o ++ "/" ++ r, o, r, d, true⟩])) ∧
    (add_repo (add_repo [] "a" "b" "fonts.json").2 "a" "b" "fonts.json").1 =
        .error "仓库已存在" ∧
    (add_repo (add_repo [] "a" "b" "fonts.json").2 "a" "b" "fonts.json").2 =
        (add_repo [] "a" "b" "fonts.json").2 ∧
    (add_repo (add_repo [] "a" "b" "fonts.json").2 "a" "b" "fonts.json").2.length = 1 := by
  refine ⟨?_, ?_, rfl, by decide, by decide⟩
  · intro repos o r d h
    simp [add_repo, h]
  · intro repos o r d h
    simp [add_repo, h]

/-- Witness for C7's hypothesis-bearing conjuncts. -/
theorem C7_witness :
    add_repo [⟨"a/b", "a", "b", "fonts.json", true⟩] "a" "b" "fonts.json" =
      (.error "仓库已存在", [⟨"a/b", "a", "b", "fonts.json", true⟩]) :=
  C7_add_duplicate_rejected.1 [⟨"a/b", "a", "b", "fonts.json", true⟩] "a" "b" "fonts.json"
    (by decide)

/-- C8 counterexample: for a registry whose single source is disabled,
    removing and re-adding it (add always sets enabled to true) changes its
    contribution to the refreshed catalog from nothing to a full record, so
    the claim fails for arbitrary registries. -/
theorem C8_counterexample :
    sourceContrib (refresh_all [dormantAcme] fetchScenA) "Inter_Regular" "acme/fonts" = [] ∧
    sourceContrib
        (refresh_all
          (add_repo (remove_repo [dormantAcme] "acme/fonts") "acme" "fonts" "fonts.json").2
          fetchScenA)
        "Inter_Regular" "acme/fonts" =
      [⟨"acme/fonts", "acme", "fonts", "fonts.json", ["Inter-Regular.ttf"]⟩] ∧
    sourceContrib (refresh_all [dormantAcme] fetchScenA) "Inter_Regular" "acme/fonts" ≠
      sourceContrib
        (refresh_all
          (add_repo (remove_repo [dormantAcme] "acme/fonts") "acme" "fonts" "fonts.json").2
          fetchScenA)
        "Inter_Regular" "acme/fonts" := by
  refine ⟨by decide, by decide, by decide⟩

/-- C8 amended: for a registry whose keys satisfy the registry invariant
    (the source's key occurs once and equals `owner ++ "/" ++ repo`) and
    whose source is enabled, removing that source by key, re-adding it with
    the same owner, repo and descriptor path, and refreshing yields exactly
    the same contributions from that source, for every identity — no
    residual state from the deletion influences the result. -/
theorem C8_remove_readd_same_contribution :
    ∀ (pre post : List Source) (s : Source) (F : Fetch),
      (∀ r ∈ pre, r.key ≠ s.key) → (∀ r ∈ post, r.key ≠ s.key) →
      s.key = s.owner ++ "/" ++ s.repo → s.enabled = true →
      ∀ fid : String,
        sourceContrib
            (refresh_all
              ((add_repo (remove_repo (pre ++ s :: post) s.key)
                  s.owner s.repo s.descriptor).2) F)
            fid s.key =
          sourceContrib (refresh_all (pre ++ s :: post) F) fid s.key := by
  intro pre post s F hpre hpost hkey hen fid
  have h₁ : ∀ r ∈ pre ++ post, r.key ≠ s.key := by
    intro r hr
    rcases List.mem_append.mp hr with h | h
    · exact hpre r h
    · exact hpost r h
  rw [add_repo_after_remove hpre hpost hkey hen,
      show (pre ++ post) ++ [s] = (pre ++ post) ++ s :: ([] : List Source) from rfl,
      contrib_single h₁ (by intro r hr; cases hr) fid,
      contrib_single hpre hpost fid]

/-- Witness for C8's amended theorem: remove and re-add `acme/fonts` next
    to an unrelated source, then compare contributions at `Inter_Regular`. -/
theorem C8_witness :
    sourceContrib
        (refresh_all
          ((add_repo (remove_repo ([alphaSrc] ++ acmeFonts :: []) acmeFonts.key)
              acmeFonts.owner acmeFonts.repo acmeFonts.descriptor).2) fetchScenA)
        "Inter_Regular" acmeFonts.key =
      sourceContrib (refresh_all ([alphaSrc] ++ acmeFonts :: []) fetchScenA)
        "Inter_Regular" acmeFonts.key :=
  C8_remove_readd_same_contribution [alphaSrc] [] acmeFonts fetchScenA
    (by decide) (by decide) (by decide) rfl "Inter_Regular"

/-- C9: loading persisted state returns the given default when no file
    exists, and when the file exists but does not parse the exception is
    swallowed and the default is returned — corruption never propagates. -/
theorem C9_corrupt_state_swallowed :
    (∀ (α : Type) (parse : String → Option α) (d : α), load_json parse none d = d) ∧
    (∀ (α : Type) (parse : String → Option α) (s : String) (d : α),
        parse s = none → load_json parse (some s) d = d) := by
  constructor
  · intro α parse d; rfl
  · intro α parse s d h; simp [load_json, h]

/-- Witness for C9's hypothesis-bearing conjunct, at the `Indexer.__init__`
    instantiation (catalog default is the empty index). -/
theorem C9_witness :
    load_json (fun _ => (none : Option Catalog)) (some "not json") ([] : Catalog) = [] :=
  C9_corrupt_state_swallowed.2 Catalog (fun _ => none) "not json" [] rfl

/-- C10: a present-but-empty `id` is falsy for Python's `or`, so refresh
    derives the identity from family and name exactly as if `id` were
    absent; a non-empty `id` is used verbatim.  Concretely, a descriptor
    entry with `id = ""` is keyed `Inter_Regular`. -/
theorem C10_falsy_id_derives :
    (∀ f : RawFont, f.id = some "" → fidOf f = derivedId f) ∧
    (∀ f : RawFont, f.id = some "" → fidOf f = fidOf { f with id := none }) ∧
    (∀ (f : RawFont) (s : String), f.id = some s → s ≠ "" → fidOf f = s) ∧
    refresh_all [acmeFonts] fetchEmptyId =
      [("Inter_Regular",
        ⟨⟨"Inter_Regular", some "Regular", some "Inter", none, none, none,
          ["Inter-Regular.ttf"]⟩,
         [⟨"acme/fonts", "acme", "fonts", "fonts.json", ["Inter-Regular.ttf"]⟩]⟩)] := by
  refine ⟨?_, ?_, ?_, by decide⟩
  · intro f h; simp [fidOf, h]
  · intro f h; simp [fidOf, h, derivedId]
  · intro f s h hs; simp [fidOf, h, hs]

/-- Witness for C10's hypothesis-bearing conjuncts, at the empty-id entry. -/
theorem C10_witness : fidOf emptyIdFont = derivedId emptyIdFont :=
  C10_falsy_id_derives.1 emptyIdFont rfl

end FontManager
